import Mathlib

/-!
Shallow embedding of the SIGMAX rust execution engine
(src/rust_execution/src/lib.rs) and verification of the spec claims.

Modelling conventions:
* `u64` values are `Nat` with an explicit `% 2 ^ 64` wherever the source
  performs an operation that can wrap (`AtomicU64::fetch_add`, `as u64`
  casts, `u64` sums).  Plain loads/stores/compares do not wrap and are
  modelled directly.
* `f64` values (`price`, `quantity`, `slippage`) are modelled as exact
  rationals: the source never performs any floating-point arithmetic on
  them — it only copies them and selects the constant `0.0001` or
  `-0.0001` — so the data flow is represented exactly, with the literal
  `0.0001` embedded as the rational `1 / 10000` it denotes.
* The wall clock (`Instant::now() ... elapsed().as_nanos()`) is an
  oracle: each call to `execute_order` takes the elapsed-nanoseconds
  value it observes as an extra explicit argument.
* The engine's atomics are only ever used sequentially in the claims
  under verification, so the compare-exchange retry loops of
  `update_stats` reduce to their single-step sequential effect.
-/

namespace Sigmax

/-- Modulus of the `u64` type used by every counter in the source. -/
def U64_MOD : Nat := 2 ^ 64

/-- Value of `u64::MAX`, the +infinity sentinel used for `min_latency_ns`. -/
def U64_MAX : Nat := 2 ^ 64 - 1

/-- Embedding of the `RustExecution` record (lib.rs lines 8-21): the
immutable per-call execution record. -/
structure RustExecution where
  order_id : Nat
  executed_price : ℚ
  executed_quantity : ℚ
  latency_ns : Nat
  slippage : ℚ
deriving DecidableEq

/-- Embedding of the `RustExecutionEngine` state (lib.rs lines 38-45):
five `AtomicU64` fields. -/
structure RustExecutionEngine where
  next_order_id : Nat
  total_executions : Nat
  total_latency_ns : Nat
  min_latency_ns : Nat
  max_latency_ns : Nat
deriving DecidableEq

/-- Embedding of `RustExecutionEngine::new` (lib.rs lines 49-58). -/
def RustExecutionEngine.new : RustExecutionEngine :=
  { next_order_id := 1
    total_executions := 0
    total_latency_ns := 0
    min_latency_ns := U64_MAX
    max_latency_ns := 0 }

/-- Embedding of `RustExecutionEngine::execute_internal` (lib.rs lines
119-137): the pure fill policy.  The `f64` literal `0.0001` is embedded
as the rational `1 / 10000`. -/
def execute_internal (price quantity : ℚ) (side order_type : Nat) : ℚ × ℚ × ℚ :=
  let executed_price := if order_type = 1 then price else price
  let slippage : ℚ := if side = 0 then 1 / 10000 else -(1 / 10000)
  let executed_quantity := quantity
  (executed_price, executed_quantity, slippage)

/-- Embedding of `RustExecutionEngine::update_stats` (lib.rs lines
139-169).  `fetch_add` on a `u64` atomic wraps modulo `2 ^ 64`; the two
compare-exchange loops, run sequentially, install the new latency
exactly when it improves the current extreme. -/
def update_stats (s : RustExecutionEngine) (latency_ns : Nat) : RustExecutionEngine :=
  { s with
    total_executions := (s.total_executions + 1) % U64_MOD
    total_latency_ns := (s.total_latency_ns + latency_ns) % U64_MOD
    min_latency_ns := if latency_ns < s.min_latency_ns then latency_ns else s.min_latency_ns
    max_latency_ns := if latency_ns > s.max_latency_ns then latency_ns else s.max_latency_ns }

/-- Embedding of `RustExecutionEngine::execute_order` (lib.rs lines
60-87).  `elapsed` is the clock oracle's elapsed-nanoseconds reading for
this call; the source truncates it with an `as u64` cast.  `fetch_add`
on `next_order_id` returns the previous value and wraps the stored one. -/
def execute_order (s : RustExecutionEngine) (symbol_id side order_type : Nat)
    (price quantity : ℚ) (elapsed : Nat) : RustExecution × RustExecutionEngine :=
  let order_id := s.next_order_id
  let s1 := { s with next_order_id := (s.next_order_id + 1) % U64_MOD }
  let fill := execute_internal price quantity side order_type
  let latency_ns := elapsed % U64_MOD
  let s2 := update_stats s1 latency_ns
  ({ order_id := order_id
     executed_price := fill.1
     executed_quantity := fill.2.1
     latency_ns := latency_ns
     slippage := fill.2.2 }, s2)

/-- Shape of the dictionary returned by `get_stats` (lib.rs lines 101-108). -/
structure StatsSnapshot where
  total_executions : Nat
  avg_latency_ns : Nat
  min_latency_ns : Nat
  max_latency_ns : Nat
deriving DecidableEq

/-- Embedding of `RustExecutionEngine::get_stats` (lib.rs lines 89-109).
The method only performs atomic loads, so it returns the engine state
unchanged alongside the snapshot. -/
def get_stats (s : RustExecutionEngine) : StatsSnapshot × RustExecutionEngine :=
  let avg_latency := if s.total_executions > 0 then s.total_latency_ns / s.total_executions else 0
  ({ total_executions := s.total_executions
     avg_latency_ns := avg_latency
     min_latency_ns := if s.min_latency_ns = U64_MAX then 0 else s.min_latency_ns
     max_latency_ns := s.max_latency_ns }, s)

/-- Embedding of `RustExecutionEngine::reset_stats` (lib.rs lines 111-116). -/
def reset_stats (s : RustExecutionEngine) : RustExecutionEngine :=
  { s with
    total_executions := 0
    total_latency_ns := 0
    min_latency_ns := U64_MAX
    max_latency_ns := 0 }

/-- Arguments of one `execute_order` call, together with the elapsed
time the clock oracle reports during that call. -/
structure OrderCall where
  symbol_id : Nat
  side : Nat
  order_type : Nat
  price : ℚ
  quantity : ℚ
  elapsed : Nat
deriving DecidableEq

/-- Run `execute_order` on the arguments packed in an `OrderCall`. -/
def doCall (s : RustExecutionEngine) (c : OrderCall) : RustExecution × RustExecutionEngine :=
  execute_order s c.symbol_id c.side c.order_type c.price c.quantity c.elapsed

/-- Embedding of `execute_batch` (lib.rs lines 172-191): sequentially
execute each order, collecting the records in input order.  The source
loop can never take the error branch, so the result is total. -/
def execute_batch : RustExecutionEngine → List OrderCall → List RustExecution × RustExecutionEngine
  | s, [] => ([], s)
  | s, c :: cs =>
    let p := doCall s c
    let q := execute_batch p.2 cs
    (p.1 :: q.1, q.2)

/-- Latencies actually recorded by a sequence of calls: the oracle's
elapsed readings after the `as u64` truncation (lib.rs line 76). -/
def recorded_latencies (cs : List OrderCall) : List Nat :=
  cs.map (fun c => c.elapsed % U64_MOD)

/-- One event of the engine's sequential history: an `execute_order`
call or a `reset_stats` call. -/
inductive Event where
  | exec (c : OrderCall)
  | reset
deriving DecidableEq

/-- Effect of one event on the engine state. -/
def stepEvent (s : RustExecutionEngine) : Event → RustExecutionEngine
  | .exec c => (doCall s c).2
  | .reset => reset_stats s

/-- Engine state after a sequence of events. -/
def runEvents : RustExecutionEngine → List Event → RustExecutionEngine
  | s, [] => s
  | s, e :: es => runEvents (stepEvent s e) es

/-- Number of `execute_order` events in a history. -/
def execCount : List Event → Nat
  | [] => 0
  | .exec _ :: es => execCount es + 1
  | .reset :: es => execCount es

/-- Shape of the dictionary returned by `benchmark_latency`
(lib.rs lines 219-226). -/
structure BenchmarkResult where
  iterations : Nat
  avg_ns : Nat
  min_ns : Nat
  max_ns : Nat
  p50_ns : Nat
  p95_ns : Nat
  p99_ns : Nat
deriving DecidableEq

/-- One loop of `k` fixed synthetic orders `(1, 0, 0, 50000.0, 1.0)`
driven against the engine (the warm-up loop at lib.rs lines 199-201 and
the measured loop at lines 205-208).  `f` is the clock oracle giving
the elapsed reading of each call, `i` the index of the next call;
returns the collected `latency_ns` values in call order and the final
engine state. -/
def benchLoop (f : Nat → Nat) : Nat → Nat → RustExecutionEngine → List Nat × RustExecutionEngine
  | _, 0, s => ([], s)
  | i, k + 1, s =>
    let p := execute_order s 1 0 0 50000 1 (f i)
    let q := benchLoop f (i + 1) k p.2
    (p.1.latency_ns :: q.1, q.2)

/-- Percentile read-back of `benchmark_latency` (lib.rs lines 210-216) on the
already sorted latency sequence: direct indexing at `iterations / 2`,
`iterations * 95 / 100`, `iterations * 99 / 100`, `0` and `iterations - 1`,
plus the wrapping `u64` sum divided by `iterations`.  The indexing is
modelled with `getElem?`: a `none` result models the out-of-bounds panic
(for `iterations == 0` the Rust `iterations - 1` wraps to `usize::MAX` and
every index misses the empty vector, so the call panics; here every lookup
is `none`). -/
def readBench (iterations : Nat) (latencies : List Nat) : Option BenchmarkResult :=
  match latencies[iterations / 2]?, latencies[iterations * 95 / 100]?,
      latencies[iterations * 99 / 100]?, latencies[0]?, latencies[iterations - 1]? with
  | some p50, some p95, some p99, some mn, some mx =>
    some { iterations := iterations
           avg_ns := (latencies.sum % U64_MOD) / iterations
           min_ns := mn
           max_ns := mx
           p50_ns := p50
           p95_ns := p95
           p99_ns := p99 }
  | _, _, _, _, _ => none

/-- Embedding of `benchmark_latency` (lib.rs lines 193-229): fresh engine,
100 warm-up executions, statistics reset, `iterations` measured executions,
then sort the collected latencies ascending and read back the percentiles.
`Vec::sort_unstable` on `u64` keys is a comparison sort to ascending order,
modelled by `List.insertionSort (· ≤ ·)`. -/
def benchmark_latency (iterations : Nat) (warmClock mainClock : Nat → Nat) :
    Option BenchmarkResult :=
  let engine := RustExecutionEngine.new
  let w := benchLoop warmClock 0 100 engine
  let engine1 := reset_stats w.2
  let m := benchLoop mainClock 0 iterations engine1
  let latencies := List.insertionSort (· ≤ ·) m.1
  readBench iterations latencies

/-- Sample order call used in concrete witnesses. -/
def sampleCall : OrderCall :=
  { symbol_id := 1, side := 0, order_type := 0, price := 50000, quantity := 1, elapsed := 5 }

/-- Order call whose elapsed reading is `2 ^ 63` nanoseconds, used to
exhibit 64-bit wrap-around of the latency accumulator. -/
def hugeCall : OrderCall :=
  { symbol_id := 1, side := 0, order_type := 0, price := 50000, quantity := 1, elapsed := 2 ^ 63 }

/-! ### Basic facts about the batch runner -/

lemma U64_MOD_pos : 0 < U64_MOD := by decide

lemma get_stats_count (s : RustExecutionEngine) :
    (get_stats s).1.total_executions = s.total_executions := rfl

lemma get_stats_avg (s : RustExecutionEngine) :
    (get_stats s).1.avg_latency_ns =
      (if s.total_executions > 0 then s.total_latency_ns / s.total_executions else 0) := rfl

lemma get_stats_min (s : RustExecutionEngine) :
    (get_stats s).1.min_latency_ns =
      (if s.min_latency_ns = U64_MAX then 0 else s.min_latency_ns) := rfl

lemma get_stats_max (s : RustExecutionEngine) :
    (get_stats s).1.max_latency_ns = s.max_latency_ns := rfl

lemma batch_cons (s : RustExecutionEngine) (c : OrderCall) (cs : List OrderCall) :
    execute_batch s (c :: cs) =
      ((doCall s c).1 :: (execute_batch (doCall s c).2 cs).1,
        (execute_batch (doCall s c).2 cs).2) := rfl

lemma batch_length (cs : List OrderCall) : ∀ s, (execute_batch s cs).1.length = cs.length := by
  induction cs with
  | nil => intro s; rfl
  | cons c cs ih => intro s; simpa [execute_batch] using ih (doCall s c).2

lemma batch_next (cs : List OrderCall) :
    ∀ s : RustExecutionEngine, s.next_order_id < U64_MOD →
      (execute_batch s cs).2.next_order_id = (s.next_order_id + cs.length) % U64_MOD := by
  induction cs with
  | nil => intro s hs; simp [execute_batch, Nat.mod_eq_of_lt hs]
  | cons c cs ih =>
    intro s hs
    have h2 : ((doCall s c).2).next_order_id = (s.next_order_id + 1) % U64_MOD := rfl
    have hlt : ((doCall s c).2).next_order_id < U64_MOD := by
      rw [h2]; exact Nat.mod_lt _ U64_MOD_pos
    calc (execute_batch s (c :: cs)).2.next_order_id
        = (execute_batch (doCall s c).2 cs).2.next_order_id := rfl
      _ = (((doCall s c).2).next_order_id + cs.length) % U64_MOD := ih _ hlt
      _ = ((s.next_order_id + 1) % U64_MOD + cs.length) % U64_MOD := by rw [h2]
      _ = (s.next_order_id + (c :: cs).length) % U64_MOD := by
          rw [Nat.mod_add_mod, List.length_cons]; congr 1; ring

lemma batch_count (cs : List OrderCall) :
    ∀ s : RustExecutionEngine, s.total_executions < U64_MOD →
      (execute_batch s cs).2.total_executions = (s.total_executions + cs.length) % U64_MOD := by
  induction cs with
  | nil => intro s hs; simp [execute_batch, Nat.mod_eq_of_lt hs]
  | cons c cs ih =>
    intro s hs
    have h2 : ((doCall s c).2).total_executions = (s.total_executions + 1) % U64_MOD := rfl
    have hlt : ((doCall s c).2).total_executions < U64_MOD := by
      rw [h2]; exact Nat.mod_lt _ U64_MOD_pos
    calc (execute_batch s (c :: cs)).2.total_executions
        = (execute_batch (doCall s c).2 cs).2.total_executions := rfl
      _ = (((doCall s c).2).total_executions + cs.length) % U64_MOD := ih _ hlt
      _ = ((s.total_executions + 1) % U64_MOD + cs.length) % U64_MOD := by rw [h2]
      _ = (s.total_executions + (c :: cs).length) % U64_MOD := by
          rw [Nat.mod_add_mod, List.length_cons]; congr 1; ring

lemma batch_total (cs : List OrderCall) :
    ∀ s : RustExecutionEngine, s.total_latency_ns < U64_MOD →
      (execute_batch s cs).2.total_latency_ns =
        (s.total_latency_ns + (recorded_latencies cs).sum) % U64_MOD := by
  induction cs with
  | nil => intro s hs; simp [execute_batch, recorded_latencies, Nat.mod_eq_of_lt hs]
  | cons c cs ih =>
    intro s hs
    have h2 : ((doCall s c).2).total_latency_ns =
        (s.total_latency_ns + c.elapsed % U64_MOD) % U64_MOD := rfl
    have hlt : ((doCall s c).2).total_latency_ns < U64_MOD := by
      rw [h2]; exact Nat.mod_lt _ U64_MOD_pos
    calc (execute_batch s (c :: cs)).2.total_latency_ns
        = (execute_batch (doCall s c).2 cs).2.total_latency_ns := rfl
      _ = (((doCall s c).2).total_latency_ns + (recorded_latencies cs).sum) % U64_MOD :=
          ih _ hlt
      _ = ((s.total_latency_ns + c.elapsed % U64_MOD) % U64_MOD +
            (recorded_latencies cs).sum) % U64_MOD := by rw [h2]
      _ = (s.total_latency_ns + (recorded_latencies (c :: cs)).sum) % U64_MOD := by
          rw [Nat.mod_add_mod]; simp only [recorded_latencies, List.map_cons, List.sum_cons]
          congr 1; ring

lemma batch_min (cs : List OrderCall) :
    ∀ s : RustExecutionEngine,
      (execute_batch s cs).2.min_latency_ns =
        (recorded_latencies cs).foldl min s.min_latency_ns := by
  induction cs with
  | nil => intro s; rfl
  | cons c cs ih =>
    intro s
    have h2 : ((doCall s c).2).min_latency_ns =
        min s.min_latency_ns (c.elapsed % U64_MOD) := by
      show (if c.elapsed % U64_MOD < s.min_latency_ns then c.elapsed % U64_MOD
            else s.min_latency_ns) = _
      split <;> omega
    calc (execute_batch s (c :: cs)).2.min_latency_ns
        = (execute_batch (doCall s c).2 cs).2.min_latency_ns := rfl
      _ = (recorded_latencies cs).foldl min ((doCall s c).2).min_latency_ns := ih _
      _ = (recorded_latencies (c :: cs)).foldl min s.min_latency_ns := by
          rw [h2]; simp [recorded_latencies]

lemma batch_max (cs : List OrderCall) :
    ∀ s : RustExecutionEngine,
      (execute_batch s cs).2.max_latency_ns =
        (recorded_latencies cs).foldl max s.max_latency_ns := by
  induction cs with
  | nil => intro s; rfl
  | cons c cs ih =>
    intro s
    have h2 : ((doCall s c).2).max_latency_ns =
        max s.max_latency_ns (c.elapsed % U64_MOD) := by
      show (if c.elapsed % U64_MOD > s.max_latency_ns then c.elapsed % U64_MOD
            else s.max_latency_ns) = _
      split <;> omega
    calc (execute_batch s (c :: cs)).2.max_latency_ns
        = (execute_batch (doCall s c).2 cs).2.max_latency_ns := rfl
      _ = (recorded_latencies cs).foldl max ((doCall s c).2).max_latency_ns := ih _
      _ = (recorded_latencies (c :: cs)).foldl max s.max_latency_ns := by
          rw [h2]; simp [recorded_latencies]

lemma foldl_min_le_init (ls : List Nat) : ∀ a, ls.foldl min a ≤ a := by
  induction ls with
  | nil => intro a; exact Nat.le_refl a
  | cons x ls ih =>
    intro a
    exact Nat.le_trans (ih (min a x)) (Nat.min_le_left _ _)

lemma foldl_min_le_mem (ls : List Nat) : ∀ a, ∀ x ∈ ls, ls.foldl min a ≤ x := by
  induction ls with
  | nil => intro a x hx; cases hx
  | cons y ls ih =>
    intro a x hx
    rcases List.mem_cons.mp hx with h | h
    · subst h
      exact Nat.le_trans (foldl_min_le_init ls (min a x)) (Nat.min_le_right _ _)
    · exact ih (min a y) x h

lemma init_le_foldl_max (ls : List Nat) : ∀ a, a ≤ ls.foldl max a := by
  induction ls with
  | nil => intro a; exact Nat.le_refl a
  | cons x ls ih =>
    intro a
    exact Nat.le_trans (Nat.le_max_left _ _) (ih (max a x))

lemma mem_le_foldl_max (ls : List Nat) : ∀ a, ∀ x ∈ ls, x ≤ ls.foldl max a := by
  induction ls with
  | nil => intro a x hx; cases hx
  | cons y ls ih =>
    intro a x hx
    rcases List.mem_cons.mp hx with h | h
    · subst h
      exact Nat.le_trans (Nat.le_max_right _ _) (init_le_foldl_max ls (max a x))
    · exact ih (max a y) x h

lemma batch_ids (cs : List OrderCall) :
    ∀ s : RustExecutionEngine, s.next_order_id < U64_MOD →
      (execute_batch s cs).1.map (fun r => r.order_id) =
        (List.range cs.length).map (fun i => (s.next_order_id + i) % U64_MOD) := by
  induction cs with
  | nil => intro s hs; rfl
  | cons c cs ih =>
    intro s hs
    have h2 : ((doCall s c).2).next_order_id = (s.next_order_id + 1) % U64_MOD := rfl
    have hlt : ((doCall s c).2).next_order_id < U64_MOD := by
      rw [h2]; exact Nat.mod_lt _ U64_MOD_pos
    have hhead : ((doCall s c).1).order_id = s.next_order_id := rfl
    calc (execute_batch s (c :: cs)).1.map (fun r => r.order_id)
        = ((doCall s c).1).order_id ::
            (execute_batch (doCall s c).2 cs).1.map (fun r => r.order_id) := rfl
      _ = s.next_order_id ::
            (List.range cs.length).map
              (fun i => (((doCall s c).2).next_order_id + i) % U64_MOD) := by
          rw [hhead, ih _ hlt]
      _ = (List.range (c :: cs).length).map (fun i => (s.next_order_id + i) % U64_MOD) := by
          rw [List.length_cons, List.range_succ_eq_map, List.map_cons, List.map_map]
          congr 1
          · simp [Nat.mod_eq_of_lt hs]
          · apply List.map_congr_left
            intro i _
            simp only [Function.comp_apply, h2, Nat.mod_add_mod, Nat.succ_eq_add_one]
            congr 1
            ring

lemma batch_get (cs : List OrderCall) :
    ∀ (s : RustExecutionEngine) (i : Nat) (c : OrderCall), cs[i]? = some c →
      (execute_batch s cs).1[i]? = some ((doCall (execute_batch s (cs.take i)).2 c).1) := by
  induction cs with
  | nil => intro s i c h; simp at h
  | cons c0 cs ih =>
    intro s i c h
    cases i with
    | zero =>
      simp only [List.getElem?_cons_zero, Option.some.injEq] at h
      subst h
      rw [batch_cons]
      simp only [List.getElem?_cons_zero]
      rfl
    | succ i =>
      simp only [List.getElem?_cons_succ] at h
      have hih := ih (doCall s c0).2 i c h
      rw [batch_cons]
      simp only [List.getElem?_cons_succ]
      rw [hih]
      rfl

/-! ### Facts about event histories -/

lemma runEvents_count_min (evs : List Event) :
    ∀ (s : RustExecutionEngine) (n : Nat),
      s.total_executions = n % U64_MOD → (n = 0 → s.min_latency_ns = U64_MAX) →
      ∃ m, m ≤ n + execCount evs ∧
        (runEvents s evs).total_executions = m % U64_MOD ∧
        (m = 0 → (runEvents s evs).min_latency_ns = U64_MAX) := by
  induction evs with
  | nil =>
    intro s n hc hm
    exact ⟨n, Nat.le_refl _, hc, hm⟩
  | cons e evs ih =>
    intro s n hc hm
    cases e with
    | exec c =>
      have hc2 : ((doCall s c).2).total_executions = (n + 1) % U64_MOD := by
        show (s.total_executions + 1) % U64_MOD = (n + 1) % U64_MOD
        rw [hc, Nat.mod_add_mod]
      obtain ⟨m, hle, h1, h2⟩ := ih (doCall s c).2 (n + 1) hc2 (by omega)
      exact ⟨m, by simp only [execCount] at *; omega, h1, h2⟩
    | reset =>
      obtain ⟨m, hle, h1, h2⟩ := ih (reset_stats s) 0 rfl (fun _ => rfl)
      exact ⟨m, by simp only [execCount] at *; omega, h1, h2⟩

lemma runEvents_execs (cs : List OrderCall) :
    ∀ s : RustExecutionEngine,
      runEvents s (cs.map Event.exec) = (execute_batch s cs).2 := by
  induction cs with
  | nil => intro s; rfl
  | cons c cs ih => intro s; simpa [runEvents, stepEvent, batch_cons] using ih (doCall s c).2

lemma foldl_min_replicate (n a : Nat) (h : 0 < n) :
    ∀ b, (List.replicate n a).foldl min b = min b a := by
  induction n with
  | zero => cases h
  | succ n ih =>
    intro b
    cases Nat.eq_zero_or_pos n with
    | inl h0 => subst h0; rfl
    | inr hpos =>
      calc (List.replicate (n + 1) a).foldl min b
          = (List.replicate n a).foldl min (min b a) := rfl
        _ = min (min b a) a := ih hpos (min b a)
        _ = min b a := by rw [Nat.min_assoc, Nat.min_self]

/-! ### Facts about sums and the benchmark loop -/

lemma sum_le_length_mul (ls : List Nat) (b : Nat) (h : ∀ x ∈ ls, x ≤ b) :
    ls.sum ≤ ls.length * b := by
  induction ls with
  | nil => simp
  | cons x ls ih =>
    have hx : x ≤ b := h x (List.mem_cons_self x ls)
    have hrest : ls.sum ≤ ls.length * b := ih (fun y hy => h y (List.mem_cons_of_mem x hy))
    simp only [List.sum_cons, List.length_cons]
    calc x + ls.sum ≤ b + ls.length * b := Nat.add_le_add hx hrest
      _ = (ls.length + 1) * b := by ring

lemma length_mul_le_sum (ls : List Nat) (b : Nat) (h : ∀ x ∈ ls, b ≤ x) :
    ls.length * b ≤ ls.sum := by
  induction ls with
  | nil => simp
  | cons x ls ih =>
    have hx : b ≤ x := h x (List.mem_cons_self x ls)
    have hrest : ls.length * b ≤ ls.sum := ih (fun y hy => h y (List.mem_cons_of_mem x hy))
    simp only [List.sum_cons, List.length_cons]
    calc (ls.length + 1) * b = b + ls.length * b := by ring
      _ ≤ x + ls.sum := Nat.add_le_add hx hrest

lemma benchLoop_latencies (f : Nat → Nat) (k : Nat) :
    ∀ (i : Nat) (s : RustExecutionEngine),
      (benchLoop f i k s).1 = (List.range k).map (fun j => f (i + j) % U64_MOD) := by
  induction k with
  | zero => intro i s; rfl
  | succ k ih =>
    intro i s
    calc (benchLoop f i (k + 1) s).1
        = f i % U64_MOD ::
            (benchLoop f (i + 1) k (execute_order s 1 0 0 50000 1 (f i)).2).1 := rfl
      _ = f i % U64_MOD :: (List.range k).map (fun j => f (i + 1 + j) % U64_MOD) := by
          rw [ih]
      _ = (List.range (k + 1)).map (fun j => f (i + j) % U64_MOD) := by
          rw [List.range_succ_eq_map, List.map_cons, List.map_map]
          congr 1
          apply List.map_congr_left
          intro j _
          simp only [Function.comp_apply, Nat.succ_eq_add_one]
          congr 2
          ring

lemma readBench_eq (n : Nat) (ls : List Nat)
    (h50 : n / 2 < ls.length) (h95 : n * 95 / 100 < ls.length)
    (h99 : n * 99 / 100 < ls.length) (h0 : 0 < ls.length) (hlast : n - 1 < ls.length) :
    readBench n ls = some
      { iterations := n
        avg_ns := (ls.sum % U64_MOD) / n
        min_ns := ls.get ⟨0, h0⟩
        max_ns := ls.get ⟨n - 1, hlast⟩
        p50_ns := ls.get ⟨n / 2, h50⟩
        p95_ns := ls.get ⟨n * 95 / 100, h95⟩
        p99_ns := ls.get ⟨n * 99 / 100, h99⟩ } := by
  unfold readBench
  rw [List.getElem?_eq_getElem h50, List.getElem?_eq_getElem h95,
    List.getElem?_eq_getElem h99, List.getElem?_eq_getElem h0,
    List.getElem?_eq_getElem hlast]
  rfl

lemma sorted_get_le_mem (ls : List Nat) (hs : ls.Sorted (· ≤ ·)) (h0 : 0 < ls.length) :
    ∀ x ∈ ls, ls.get ⟨0, h0⟩ ≤ x := by
  intro x hx
  obtain ⟨j, hj, hjx⟩ := List.mem_iff_getElem.mp hx
  subst hjx
  exact hs.rel_get_of_le (by simp)

/-! ### The claims -/

/-- C2: for every input, `execute_order` returns `executed_price` equal to the
input price, `executed_quantity` equal to the input quantity, and `slippage`
equal to `+0.0001` when `side == 0` and `-0.0001` for any non-zero side. -/
theorem c2_order_processor_policy (s : RustExecutionEngine)
    (symbol_id side order_type : Nat) (price quantity : ℚ) (elapsed : Nat) :
    (execute_order s symbol_id side order_type price quantity elapsed).1.executed_price
      = price ∧
    (execute_order s symbol_id side order_type price quantity elapsed).1.executed_quantity
      = quantity ∧
    (execute_order s symbol_id side order_type price quantity elapsed).1.slippage
      = (if side = 0 then (1 : ℚ) / 10000 else -(1 / 10000)) := by
  refine ⟨?_, ?_, ?_⟩ <;> simp [execute_order, execute_internal]

/-- C6: `reset_stats` followed immediately by `get_stats`, from every engine
state, yields total_executions 0, average 0, min 0 (the `u64::MAX` sentinel is
normalized) and max 0. -/
theorem c6_reset_postcondition (s : RustExecutionEngine) :
    (get_stats (reset_stats s)).1 =
      { total_executions := 0, avg_latency_ns := 0, min_latency_ns := 0,
        max_latency_ns := 0 } := by
  simp [get_stats, reset_stats]

/-- C9: two `execute_order` calls from the same engine state with identical
symbol, side, price and quantity, differing only in `order_type` (and in the
elapsed time the clock happens to report), produce identical
`executed_price`, `executed_quantity` and `slippage`. -/
theorem c9_order_type_noninterference (s : RustExecutionEngine)
    (symbol_id side t1 t2 : Nat) (price quantity : ℚ) (e1 e2 : Nat) :
    (execute_order s symbol_id side t1 price quantity e1).1.executed_price
      = (execute_order s symbol_id side t2 price quantity e2).1.executed_price ∧
    (execute_order s symbol_id side t1 price quantity e1).1.executed_quantity
      = (execute_order s symbol_id side t2 price quantity e2).1.executed_quantity ∧
    (execute_order s symbol_id side t1 price quantity e1).1.slippage
      = (execute_order s symbol_id side t2 price quantity e2).1.slippage := by
  refine ⟨?_, ?_, ?_⟩ <;> simp [execute_order, execute_internal]

/-- C10: `reset_stats` writes only the four statistics counters and leaves
`next_order_id` unchanged (so the order id handed out right after a reset is
the same one that would have been handed out without the reset), and
`get_stats` does not modify the engine state at all. -/
theorem c10_frame_properties (s : RustExecutionEngine) (c : OrderCall) :
    (reset_stats s).next_order_id = s.next_order_id ∧
    reset_stats s =
      { s with total_executions := 0, total_latency_ns := 0,
               min_latency_ns := U64_MAX, max_latency_ns := 0 } ∧
    (doCall (reset_stats s) c).1.order_id = (doCall s c).1.order_id ∧
    (get_stats s).2 = s :=
  ⟨rfl, rfl, rfl, rfl⟩

/-- C3 (amended): on a fresh engine, for every `N` with `N + 1 < 2 ^ 64`, the
order ids returned by `N` sequential `execute_order` calls are exactly
`1, 2, ..., N` in order, and `next_order_id` afterwards equals `1 + N`.  (The
unamended claim, quantified over every `N`, fails at `N = 2 ^ 64` because the
`u64` counter wraps; see the counterexample.) -/
theorem c3_order_id_assignment (N : Nat) (cs : List OrderCall)
    (hlen : cs.length = N) (hN : N + 1 < U64_MOD) :
    (execute_batch RustExecutionEngine.new cs).1.map (fun r => r.order_id) =
      (List.range N).map (fun i => i + 1) ∧
    (execute_batch RustExecutionEngine.new cs).2.next_order_id = 1 + N := by
  subst hlen
  constructor
  · rw [batch_ids cs RustExecutionEngine.new (by decide)]
    apply List.map_congr_left
    intro i hi
    have hilt : i < cs.length := List.mem_range.mp hi
    show (1 + i) % U64_MOD = i + 1
    rw [Nat.mod_eq_of_lt (by omega)]
    omega
  · rw [batch_next cs RustExecutionEngine.new (by decide)]
    show (1 + cs.length) % U64_MOD = 1 + cs.length
    exact Nat.mod_eq_of_lt (by omega)

/-- Witness for C3 at `N = 2`. -/
theorem c3_order_id_assignment_witness :
    ([sampleCall, sampleCall] : List OrderCall).length = 2 ∧ 2 + 1 < U64_MOD ∧
    ((execute_batch RustExecutionEngine.new [sampleCall, sampleCall]).1.map
        (fun r => r.order_id) = (List.range 2).map (fun i => i + 1) ∧
      (execute_batch RustExecutionEngine.new [sampleCall, sampleCall]).2.next_order_id
        = 1 + 2) :=
  ⟨rfl, by decide,
    c3_order_id_assignment 2 [sampleCall, sampleCall] rfl (by decide)⟩

/-- Counterexample to C3 as stated: after `2 ^ 64` sequential executions on a
fresh engine the `u64` order-id counter has wrapped, so `next_order_id` is `1`
and not `1` plus the number of executions performed. -/
theorem c3_order_id_counterexample :
    (execute_batch RustExecutionEngine.new
        (List.replicate U64_MOD sampleCall)).2.next_order_id ≠
      1 + (List.replicate U64_MOD sampleCall).length := by
  rw [batch_next _ _ (by decide), List.length_replicate]
  decide

/-- C1 (amended): after any nonempty sequence of `execute_order` calls on a
fresh engine with no reset, provided no 64-bit overflow occurs (the sum of
the recorded latencies and the number of executions are each below `2 ^ 64`),
the reported min is at most every recorded latency, every recorded latency is
at most the reported max, and the reported average is the truncating division
of the sum of the recorded latencies by the number of executions.  (The
unamended claim fails when the `u64` latency accumulator wraps; see the
counterexample.) -/
theorem c1_stats_aggregator_invariant (cs : List OrderCall) (hne : cs ≠ [])
    (hsum : (recorded_latencies cs).sum < U64_MOD) (hlen : cs.length < U64_MOD) :
    (∀ l ∈ recorded_latencies cs,
        (get_stats (execute_batch RustExecutionEngine.new cs).2).1.min_latency_ns ≤ l ∧
        l ≤ (get_stats (execute_batch RustExecutionEngine.new cs).2).1.max_latency_ns) ∧
    (get_stats (execute_batch RustExecutionEngine.new cs).2).1.avg_latency_ns =
      (recorded_latencies cs).sum / cs.length := by
  have hmin : (execute_batch RustExecutionEngine.new cs).2.min_latency_ns =
      (recorded_latencies cs).foldl min U64_MAX := batch_min cs RustExecutionEngine.new
  have hmax : (execute_batch RustExecutionEngine.new cs).2.max_latency_ns =
      (recorded_latencies cs).foldl max 0 := batch_max cs RustExecutionEngine.new
  have hcount : (execute_batch RustExecutionEngine.new cs).2.total_executions =
      cs.length := by
    rw [batch_count cs RustExecutionEngine.new (by decide)]
    show (0 + cs.length) % U64_MOD = cs.length
    rw [Nat.zero_add]
    exact Nat.mod_eq_of_lt hlen
  have htotal : (execute_batch RustExecutionEngine.new cs).2.total_latency_ns =
      (recorded_latencies cs).sum := by
    rw [batch_total cs RustExecutionEngine.new (by decide)]
    show (0 + (recorded_latencies cs).sum) % U64_MOD = (recorded_latencies cs).sum
    rw [Nat.zero_add]
    exact Nat.mod_eq_of_lt hsum
  have hpos : 0 < cs.length := List.length_pos.mpr hne
  constructor
  · intro l hl
    constructor
    · by_cases hM : (execute_batch RustExecutionEngine.new cs).2.min_latency_ns = U64_MAX
      · simp [get_stats, hM]
      · simp only [get_stats, if_neg hM]
        rw [hmin]
        exact foldl_min_le_mem _ _ l hl
    · show l ≤ (execute_batch RustExecutionEngine.new cs).2.max_latency_ns
      rw [hmax]
      exact mem_le_foldl_max _ _ l hl
  · show (if (execute_batch RustExecutionEngine.new cs).2.total_executions > 0 then
        (execute_batch RustExecutionEngine.new cs).2.total_latency_ns /
          (execute_batch RustExecutionEngine.new cs).2.total_executions else 0) = _
    rw [hcount, htotal, if_pos hpos]

/-- Witness for C1 on a single call with elapsed reading 5. -/
theorem c1_stats_aggregator_invariant_witness :
    (([sampleCall] : List OrderCall) ≠ []) ∧
    (recorded_latencies [sampleCall]).sum < U64_MOD ∧
    ([sampleCall] : List OrderCall).length < U64_MOD ∧
    ((∀ l ∈ recorded_latencies [sampleCall],
        (get_stats (execute_batch RustExecutionEngine.new [sampleCall]).2).1.min_latency_ns ≤ l ∧
        l ≤ (get_stats (execute_batch RustExecutionEngine.new [sampleCall]).2).1.max_latency_ns) ∧
      (get_stats (execute_batch RustExecutionEngine.new [sampleCall]).2).1.avg_latency_ns =
        (recorded_latencies [sampleCall]).sum / ([sampleCall] : List OrderCall).length) :=
  ⟨by decide, by decide, by decide,
    c1_stats_aggregator_invariant [sampleCall] (by decide) (by decide) (by decide)⟩

/-- Counterexample to C1 as stated: two calls whose recorded latencies are
each `2 ^ 63` make the `u64` latency accumulator wrap to `0`, so the reported
average is `0` while the truncating mean of the recorded latencies is
`2 ^ 63`. -/
theorem c1_stats_aggregator_counterexample :
    (get_stats (execute_batch RustExecutionEngine.new [hugeCall, hugeCall]).2).1.avg_latency_ns ≠
      (recorded_latencies [hugeCall, hugeCall]).sum /
        ([hugeCall, hugeCall] : List OrderCall).length := by
  decide

/-- C7: `execute_batch` returns one record per input order in the caller's
order — the result has the same length, its `i`-th record is the result of
executing the `i`-th order in the state reached after the first `i` orders,
the empty batch yields the empty result, and a batch of three orders on a
fresh engine yields exactly the order ids `1, 2, 3`, strictly increasing. -/
theorem c7_batch_semantics :
    (∀ (s : RustExecutionEngine) (cs : List OrderCall),
        (execute_batch s cs).1.length = cs.length) ∧
    (∀ (s : RustExecutionEngine) (cs : List OrderCall) (i : Nat) (c : OrderCall),
        cs[i]? = some c →
        (execute_batch s cs).1[i]? =
          some ((doCall (execute_batch s (cs.take i)).2 c).1)) ∧
    (∀ s : RustExecutionEngine, execute_batch s [] = ([], s)) ∧
    (∀ c1 c2 c3 : OrderCall,
        (execute_batch RustExecutionEngine.new [c1, c2, c3]).1.map
            (fun r => r.order_id) = [1, 2, 3] ∧
        List.Chain' (· < ·)
          ((execute_batch RustExecutionEngine.new [c1, c2, c3]).1.map
            (fun r => r.order_id))) := by
  refine ⟨fun s cs => batch_length cs s, fun s cs i c h => batch_get cs s i c h,
    fun s => rfl, fun c1 c2 c3 => ?_⟩
  have hids := batch_ids [c1, c2, c3] RustExecutionEngine.new (by decide)
  rw [show ([c1, c2, c3] : List OrderCall).length = 3 from rfl] at hids
  have hlist : (List.range 3).map
      (fun i => (RustExecutionEngine.new.next_order_id + i) % U64_MOD) = [1, 2, 3] := by
    decide
  rw [hids, hlist]
  refine ⟨rfl, ?_⟩
  simp [List.chain'_cons]

/-- Witness for C7 on a singleton batch. -/
theorem c7_batch_semantics_witness :
    (([sampleCall] : List OrderCall)[0]? = some sampleCall) ∧
    (execute_batch RustExecutionEngine.new [sampleCall]).1[0]? =
      some ((doCall (execute_batch RustExecutionEngine.new
        (([sampleCall] : List OrderCall).take 0)).2 sampleCall).1) :=
  ⟨rfl, c7_batch_semantics.2.1 RustExecutionEngine.new [sampleCall] 0 sampleCall rfl⟩

/-- C5 (amended): in every engine state reached by a history of fewer than
`2 ^ 64` executions (with arbitrary interleaved resets), `get_stats` reports
the truncating division of `total_latency_ns` by `total_executions` as the
average when `total_executions > 0`, and reports average `0` and min `0`
(normalizing the `u64::MAX` sentinel) when `total_executions == 0`.  (The
unamended claim fails once the `u64` execution counter wraps; see the
counterexample.) -/
theorem c5_snapshot_normalization (evs : List Event) (hcount : execCount evs < U64_MOD) :
    ((runEvents RustExecutionEngine.new evs).total_executions > 0 →
      (get_stats (runEvents RustExecutionEngine.new evs)).1.avg_latency_ns =
        (runEvents RustExecutionEngine.new evs).total_latency_ns /
          (runEvents RustExecutionEngine.new evs).total_executions) ∧
    ((runEvents RustExecutionEngine.new evs).total_executions = 0 →
      (get_stats (runEvents RustExecutionEngine.new evs)).1.avg_latency_ns = 0 ∧
      (get_stats (runEvents RustExecutionEngine.new evs)).1.min_latency_ns = 0) := by
  obtain ⟨m, hle, hc, hm⟩ := runEvents_count_min evs RustExecutionEngine.new 0
    (by show (0 : Nat) = 0 % U64_MOD; rw [Nat.zero_mod]) (fun _ => rfl)
  constructor
  · intro hpos
    show (if (runEvents RustExecutionEngine.new evs).total_executions > 0 then _ else 0) = _
    rw [if_pos hpos]
  · intro h0
    have hmM : m % U64_MOD = m := Nat.mod_eq_of_lt (by omega)
    have hm0 : m = 0 := by rw [h0, hmM] at hc; omega
    have hminM := hm hm0
    constructor
    · show (if (runEvents RustExecutionEngine.new evs).total_executions > 0 then _ else 0) = 0
      rw [if_neg (by omega)]
    · show (if (runEvents RustExecutionEngine.new evs).min_latency_ns = U64_MAX
          then 0 else _) = 0
      rw [if_pos hminM]

/-- Witness for C5 on the empty history. -/
theorem c5_snapshot_normalization_witness :
    execCount ([] : List Event) < U64_MOD ∧
    (((runEvents RustExecutionEngine.new []).total_executions > 0 →
        (get_stats (runEvents RustExecutionEngine.new [])).1.avg_latency_ns =
          (runEvents RustExecutionEngine.new []).total_latency_ns /
            (runEvents RustExecutionEngine.new []).total_executions) ∧
      ((runEvents RustExecutionEngine.new []).total_executions = 0 →
        (get_stats (runEvents RustExecutionEngine.new [])).1.avg_latency_ns = 0 ∧
        (get_stats (runEvents RustExecutionEngine.new [])).1.min_latency_ns = 0)) :=
  ⟨by decide, c5_snapshot_normalization [] (by decide)⟩

/-- Counterexample to C5 as stated: after `2 ^ 64` executions with recorded
latency `5` the `u64` execution counter has wrapped back to `0`, yet the
internal min is `5`, not the sentinel, so `get_stats` reports
`total_executions == 0` together with a nonzero `min_latency_ns`. -/
theorem c5_snapshot_counterexample :
    (runEvents RustExecutionEngine.new
        (List.replicate U64_MOD (Event.exec sampleCall))).total_executions = 0 ∧
    (get_stats (runEvents RustExecutionEngine.new
        (List.replicate U64_MOD (Event.exec sampleCall)))).1.min_latency_ns ≠ 0 := by
  have hrepl : List.replicate U64_MOD (Event.exec sampleCall) =
      (List.replicate U64_MOD sampleCall).map Event.exec := by
    rw [List.map_replicate]
  rw [hrepl, runEvents_execs]
  have hcount : (execute_batch RustExecutionEngine.new
      (List.replicate U64_MOD sampleCall)).2.total_executions = 0 := by
    rw [batch_count _ _ (by decide), List.length_replicate]
    decide
  have hmin : (execute_batch RustExecutionEngine.new
      (List.replicate U64_MOD sampleCall)).2.min_latency_ns = 5 := by
    rw [batch_min]
    show (recorded_latencies (List.replicate U64_MOD sampleCall)).foldl min U64_MAX = 5
    rw [recorded_latencies, List.map_replicate,
      foldl_min_replicate U64_MOD (sampleCall.elapsed % U64_MOD) (by decide)]
    decide
  refine ⟨hcount, ?_⟩
  rw [get_stats_min, hmin]
  decide

/-- C4: called with `iterations == 0`, the benchmark produces no result at
all for any clock behaviour — the model of the source's out-of-bounds panic
on `latencies[0]` and the wrapped `latencies[iterations - 1]` — instead of
the explicit precondition error the claim requires. -/
theorem c4_benchmark_zero_divergence (warmClock mainClock : Nat → Nat) :
    benchmark_latency 0 warmClock mainClock = none := rfl

/-- C8 (amended): for every clock behaviour, `benchmark_latency 100` succeeds
with `iterations == 100` and `min_ns ≤ p50_ns ≤ p95_ns ≤ p99_ns ≤ max_ns`,
and — provided the sum of the measured latencies is below `2 ^ 64`, so the
`u64` sum does not wrap — `avg_ns` lies within `[min_ns, max_ns]`.  Only the
avg clause carries the proviso; the rest holds unconditionally.  (The
unamended claim fails when the `u64` sum on lib.rs line 216 overflows; see
the counterexample.) -/
theorem c8_benchmark_percentile_ordering (warmClock mainClock : Nat → Nat) :
    ∃ r, benchmark_latency 100 warmClock mainClock = some r ∧
      r.iterations = 100 ∧
      r.min_ns ≤ r.p50_ns ∧ r.p50_ns ≤ r.p95_ns ∧ r.p95_ns ≤ r.p99_ns ∧
      r.p99_ns ≤ r.max_ns ∧
      (((List.range 100).map (fun j => mainClock j % U64_MOD)).sum < U64_MOD →
        r.min_ns ≤ r.avg_ns ∧ r.avg_ns ≤ r.max_ns) := by
  have hunfold : benchmark_latency 100 warmClock mainClock =
      readBench 100 (List.insertionSort (· ≤ ·)
        (benchLoop mainClock 0 100
          (reset_stats (benchLoop warmClock 0 100 RustExecutionEngine.new).2)).1) := rfl
  have hlat : (benchLoop mainClock 0 100
      (reset_stats (benchLoop warmClock 0 100 RustExecutionEngine.new).2)).1 =
      (List.range 100).map (fun j => mainClock j % U64_MOD) := by
    rw [benchLoop_latencies]
    apply List.map_congr_left
    intro j _
    rw [Nat.zero_add]
  rw [hlat] at hunfold
  set Lval := (List.range 100).map (fun j => mainClock j % U64_MOD) with hLval
  set S := List.insertionSort (· ≤ ·) Lval with hSdef
  have hperm : S.Perm Lval := List.perm_insertionSort _ _
  have hsorted : S.Sorted (· ≤ ·) := List.sorted_insertionSort _ _
  have hlenL : Lval.length = 100 := by
    rw [hLval]
    simp
  clear_value S
  clear_value Lval
  have hlenS : S.length = 100 := by
    rw [hperm.length_eq, hlenL]
  have h50 : 100 / 2 < S.length := by omega
  have h95 : 100 * 95 / 100 < S.length := by omega
  have h99 : 100 * 99 / 100 < S.length := by omega
  have h0 : 0 < S.length := by omega
  have hlast : 100 - 1 < S.length := by omega
  have hbench := readBench_eq 100 S h50 h95 h99 h0 hlast
  have hminmem : ∀ x ∈ S, S.get ⟨0, h0⟩ ≤ x := sorted_get_le_mem S hsorted h0
  have hmaxmem : ∀ x ∈ S, x ≤ S.get ⟨100 - 1, hlast⟩ := by
    intro x hx
    obtain ⟨j, hj, hjx⟩ := List.mem_iff_getElem.mp hx
    subst hjx
    exact hsorted.rel_get_of_le (Fin.mk_le_mk.mpr (by omega))
  refine ⟨{ iterations := 100
            avg_ns := (S.sum % U64_MOD) / 100
            min_ns := S.get ⟨0, h0⟩
            max_ns := S.get ⟨100 - 1, hlast⟩
            p50_ns := S.get ⟨100 / 2, h50⟩
            p95_ns := S.get ⟨100 * 95 / 100, h95⟩
            p99_ns := S.get ⟨100 * 99 / 100, h99⟩ },
    ?_, rfl, ?_, ?_, ?_, ?_, ?_⟩
  · rw [hunfold]
    exact hbench
  · exact hsorted.rel_get_of_le (Fin.mk_le_mk.mpr (by norm_num))
  · exact hsorted.rel_get_of_le (Fin.mk_le_mk.mpr (by norm_num))
  · exact hsorted.rel_get_of_le (Fin.mk_le_mk.mpr (by norm_num))
  · exact hsorted.rel_get_of_le (Fin.mk_le_mk.mpr (by norm_num))
  · intro hsum
    have hSsum : S.sum % U64_MOD = S.sum := by
      rw [hperm.sum_eq]
      exact Nat.mod_eq_of_lt hsum
    constructor
    · show S.get ⟨0, h0⟩ ≤ (S.sum % U64_MOD) / 100
      rw [hSsum, Nat.le_div_iff_mul_le (by norm_num)]
      have hlow := length_mul_le_sum S _ hminmem
      nth_rewrite 1 [hlenS] at hlow
      calc S.get ⟨0, h0⟩ * 100 = 100 * S.get ⟨0, h0⟩ := by ring
        _ ≤ S.sum := hlow
    · show (S.sum % U64_MOD) / 100 ≤ S.get ⟨100 - 1, hlast⟩
      rw [hSsum]
      have hup := sum_le_length_mul S _ hmaxmem
      nth_rewrite 1 [hlenS] at hup
      calc S.sum / 100 ≤ (100 * S.get ⟨100 - 1, hlast⟩) / 100 := Nat.div_le_div_right hup
        _ = S.get ⟨100 - 1, hlast⟩ := Nat.mul_div_cancel_left _ (by norm_num)

/-- Witness for C8 with a clock that always reports 0 elapsed nanoseconds:
the inner no-overflow hypothesis holds there, so the avg clause is exercised
too. -/
theorem c8_benchmark_percentile_ordering_witness :
    ((List.range 100).map (fun j => (fun _ : Nat => 0) j % U64_MOD)).sum < U64_MOD ∧
    (∃ r, benchmark_latency 100 (fun _ => 0) (fun _ => 0) = some r ∧
      r.iterations = 100 ∧
      r.min_ns ≤ r.p50_ns ∧ r.p50_ns ≤ r.p95_ns ∧ r.p95_ns ≤ r.p99_ns ∧
      r.p99_ns ≤ r.max_ns ∧
      (((List.range 100).map (fun j => (fun _ : Nat => 0) j % U64_MOD)).sum < U64_MOD →
        r.min_ns ≤ r.avg_ns ∧ r.avg_ns ≤ r.max_ns)) :=
  ⟨by decide, c8_benchmark_percentile_ordering (fun _ => 0) (fun _ => 0)⟩

/-- Counterexample to C8 as stated: a clock reporting `2 ^ 63` elapsed
nanoseconds on every measured call makes the `u64` latency sum wrap to `0`,
so the benchmark reports `avg_ns = 0` strictly below `min_ns = 2 ^ 63` — the
claim that `avg_ns` lies within `[min_ns, max_ns]` fails. -/
theorem c8_benchmark_avg_counterexample :
    benchmark_latency 100 (fun _ => 0) (fun _ => 2 ^ 63) =
      some { iterations := 100, avg_ns := 0, min_ns := 2 ^ 63, max_ns := 2 ^ 63,
             p50_ns := 2 ^ 63, p95_ns := 2 ^ 63, p99_ns := 2 ^ 63 } ∧
    ¬ (2 ^ 63 ≤ (0 : Nat)) := by
  constructor
  · decide
  · decide

end Sigmax
